import Mathlib

/-!
Verification of the RH-ISAC intel-integrations scripts.

Shallow embedding of the IOC normalization and dispatch pipeline:
  * `search_loop` / `retrieve_iocs`  — the descending-cursor pagination of
    `trustar/v1.3/generic/get_trustar_iocs.py`;
  * the Splunk field mappers (`build_field_values`) of
    `trustar/splunk/trustar2_iocs_to_splunk.py` and
    `misp/splunk/misp_iocs_to_splunk.py`, including the URL→Domain
    reclassification heuristic;
  * the CrowdStrike delivery client (`upload_iocs`) of
    `misp/crowdstrike/misp_iocs_crowdstrike_falcon.py`: 200-record blocking
    and the duplicate-indicator 400-retry;
  * the CSV writers (`ind_dict_to_csv`, `obl_dict_to_csv`, `ioc_dicts_to_csv`)
    with their tag flattening and tags-column-last handling;
  * `filter_results` of the MISP scripts (vetted-tag exclusion).

Timestamps are embedded as `Int` (Python integers, epoch milliseconds);
the unbounded `while True:` pagination loop is embedded with explicit fuel.
-/

namespace IntelIntegrations

/-! ### Python string primitives

Python's `in`, `split(sep, 1)`, `lower()` and single-character `replace`,
embedded structurally over the character list of the string. -/

/-- Model of Python list/str containment scan start: does `needle` start `hay`? -/
def listStartsWith : List Char → List Char → Bool
  | [], _ => true
  | _ :: _, [] => false
  | a :: as, b :: bs => a == b && listStartsWith as bs

/-- Substring occurrence over character lists. -/
def listContainsSub (needle : List Char) : List Char → Bool
  | [] => needle.isEmpty
  | b :: bs => listStartsWith needle (b :: bs) || listContainsSub needle bs

/-- Model of Python `needle in hay` on strings. -/
def pyIn (needle hay : String) : Bool :=
  listContainsSub needle.data hay.data

/-- Split a character list at the first occurrence of `sep`:
Python `s.split(sep, 1)` when `sep` occurs. -/
def splitOnceAux (sep : List Char) : List Char → Option (List Char × List Char)
  | [] => none
  | c :: cs =>
    if listStartsWith sep (c :: cs) then some ([], List.drop sep.length (c :: cs))
    else
      match splitOnceAux sep cs with
      | some (pre, post) => some (c :: pre, post)
      | none => none

/-- Model of Python `s.split(sep, 1)`, returning the parts before and after the
first occurrence of `sep`; when `sep` does not occur, `(s, "")`
(the scripts only use the second component after testing occurrence). -/
def splitOnce (s sep : String) : String × String :=
  match splitOnceAux sep.data s.data with
  | some (pre, post) => (String.mk pre, String.mk post)
  | none => (s, "")

/-- Model of Python `s.lower()` (ASCII, as used on indicator type names). -/
def strLower (s : String) : String :=
  String.mk (s.data.map Char.toLower)

/-- Model of Python `s.replace('"', "'")` as used by the MISP CSV writer. -/
def replaceQuotes (s : String) : String :=
  String.mk (s.data.map (fun c => if c == Char.ofNat 34 then Char.ofNat 39 else c))

/-! ### Pagination (`trustar/v1.3/generic/get_trustar_iocs.py`, `retrieve_iocs`)

A page item exposes the fields the loop reads: the indicator value and its
`last_seen` timestamp (epoch milliseconds). -/

/-- An indicator summary as returned in a search page
(`page.items` of `search_indicators_page`). -/
structure PageItem where
  value : String
  lastSeen : Int
deriving DecidableEq, Repr

/-- The `while True:` pagination loop of `retrieve_iocs`
(`get_trustar_iocs.py` lines 170-192), embedded with fuel.

`search from_time pg_to` stands for
`ts.search_indicators_page(enclave_ids=…, from_time=from_time, to_time=pg_to, …)`.
Returns the accumulated records (`all_metadata`) and the number of page
queries issued. -/
def search_loop (search : Int → Int → List PageItem) (from_time : Int) :
    Nat → Int → List PageItem → List PageItem × Nat
  | 0, _, acc => (acc, 0)
  | fuel + 1, pg_to, acc =>
    match h : search from_time pg_to with
    | [] => (acc, 1)
    | i :: is =>
      let page := i :: is
      let acc2 := acc ++ page
      let earliest_lastseen := (page.getLast (by simp)).lastSeen
      let pg_to2 := earliest_lastseen - 1
      if pg_to2 < from_time then (acc2, 1)
      else
        let r := search_loop search from_time fuel pg_to2 acc2
        (r.1, r.2 + 1)

/-- Result of one `retrieve_iocs` run: the collected indicator records, the
number of page queries made, and the console messages printed. -/
structure RetrieveResult where
  iocs : List PageItem
  queries : Nat
  messages : List String
deriving Repr

/-- The validation message printed by `retrieve_iocs` when both restriction
flags are set (`get_trustar_iocs.py` line 128). -/
def bothFlagsMsg : String :=
  "Parameters \"only_vals\" and \"only_vt\" cannot both be True"

/-- `retrieve_iocs` (`get_trustar_iocs.py` lines 90-210): validates the
mutually exclusive `only_vals`/`only_vt` flags — on conflict it prints an
error and returns an empty list without querying — then runs the pagination
loop starting at `pg_to = to_time`. -/
def retrieve_iocs (search : Int → Int → List PageItem) (from_time to_time : Int)
    (only_vals only_vt : Bool) (fuel : Nat) : RetrieveResult :=
  if only_vals && only_vt then
    { iocs := [], queries := 0, messages := [bothFlagsMsg] }
  else
    let r := search_loop search from_time fuel to_time []
    { iocs := r.1, queries := r.2, messages := [] }

/-- Outcome of the `__main__` block of `get_trustar_iocs.py`: console
messages, the number of queries issued, and the process exit code. -/
structure ScriptRun where
  messages : List String
  queries : Nat
  exitCode : Nat
deriving Repr

/-- The `__main__` block of `get_trustar_iocs.py` (lines 274-293) after
argument parsing: call `retrieve_iocs`; when it returns no IOCs print
`No IOCs matched the query. Nothing to output.` and fall off the end of the
script (exit status 0); otherwise write the output file and end (also exit
status 0 — the script never calls `sys.exit` with a non-zero argument). -/
def script_main (search : Int → Int → List PageItem) (from_time to_time : Int)
    (only_vals only_vt : Bool) (fuel : Nat) : ScriptRun :=
  let r := retrieve_iocs search from_time to_time only_vals only_vt fuel
  if r.iocs.isEmpty then
    { messages := r.messages ++ ["No IOCs matched the query. Nothing to output."],
      queries := r.queries, exitCode := 0 }
  else
    { messages := r.messages, queries := r.queries, exitCode := 0 }

/-- The minimum `last_seen` timestamp of a non-empty page `i :: is`. -/
def minLastSeen (i : PageItem) (is : List PageItem) : Int :=
  is.foldl (fun a x => min a x.lastSeen) i.lastSeen

/-- A synthetic paginated source over a fixed record list `L`: a query
bounded by `[f, t]` returns the first `P` records of `L` whose `last_seen`
lies in the window. -/
def syntheticSearch (L : List PageItem) (P : Nat) : Int → Int → List PageItem :=
  fun f t => (L.filter (fun r => decide (f ≤ r.lastSeen) && decide (r.lastSeen ≤ t))).take P

/-- Python `value[:-1]`. -/
def strDropLast (s : String) : String :=
  String.mk (s.data.take (s.data.length - 1))

/-- Model of Python `int(s)` on numeral strings (used by the CIDR check). -/
def pyNatAux : List Char → Nat → Option Nat
  | [], acc => some acc
  | c :: cs, acc =>
    if '0' ≤ c ∧ c ≤ '9' then pyNatAux cs (acc * 10 + (c.toNat - 48)) else none

/-- Model of Python `int(s)`; `none` models a raised `ValueError`. -/
def pyInt? (s : String) : Option Int :=
  match s.data with
  | [] => none
  | '-' :: cs => if cs.isEmpty then none else (pyNatAux cs 0).map (fun n => -(n : Int))
  | c :: cs => (pyNatAux (c :: cs) 0).map (fun n => (n : Int))

/-- The scheme-stripping step shared by both mappers:
`if '://' in value: _, value = value.split('://', 1)`. -/
def stripScheme (v : String) : String :=
  if pyIn "://" v = true then (splitOnce v "://").2 else v

/-- A TruSTAR 2.0 tag object (the mapper reads `t['name']`). -/
structure NameTag where
  name : String
deriving DecidableEq, Repr

/-- An indicator dictionary as fed to the TruSTAR Splunk mapper
(the fields `build_field_values` reads). -/
structure TsObl where
  value : String
  indicatorType : String
  lastSeen : Int
  tags : List NameTag
deriving DecidableEq, Repr

/-- The kvstore row the TruSTAR mapper builds; `cidr` and `wildcard` model
the conditionally added dict keys. `updated` is `int(lastSeen / 1000)`. -/
structure TsSplunkFields where
  value : String
  ioc_type : String
  updated : Int
  source : String
  tags : String
  cidr : Option String
  wildcard : Option String
deriving DecidableEq, Repr

/-- Per-indicator body of `build_field_values`
(`trustar2_iocs_to_splunk.py` lines 151-180). -/
def trustar_build_fields (ind : TsObl) : TsSplunkFields :=
  let fields : TsSplunkFields :=
    { value := ind.value
      ioc_type := strLower ind.indicatorType
      updated := ind.lastSeen / 1000
      source := "RH-ISAC Vetted"
      tags := String.intercalate " | " (ind.tags.map (fun t => t.name))
      cidr := none
      wildcard := none }
  if ind.indicatorType = "CIDR_BLOCK" ∨ ind.indicatorType = "IP" then
    -- try: assert int(value.split('/', 1)[1]) <= 32 … except: append "/32"
    let ok : Bool := pyIn "/" ind.value &&
      (match pyInt? (splitOnce ind.value "/").2 with
       | some n => decide (n ≤ 32)
       | none => false)
    if ok then { fields with cidr := some ind.value }
    else { fields with cidr := some (ind.value ++ "/32") }
  else if ind.indicatorType = "URL" then
    let value := stripScheme ind.value
    if pyIn "/" value = true then
      let netloc := (splitOnce value "/").1
      let remainder := (splitOnce value "/").2
      if remainder ≠ "" ∨ pyIn "@" netloc = true ∨ pyIn ":" netloc = true then
        { fields with wildcard := some ("*" ++ value) }
      else
        { fields with ioc_type := "domain", value := strDropLast value }
    else
      if pyIn "@" value = false ∧ pyIn ":" value = false then
        { fields with ioc_type := "domain", value := value }
      else fields
  else fields

/-- `build_field_values` of the TruSTAR Splunk script: maps every indicator,
skipping none. -/
def trustar_build_field_values (inds : List TsObl) : List TsSplunkFields :=
  inds.map trustar_build_fields

/-- A MISP tag entry as the MISP Splunk mapper reads it (`t['event']`). -/
structure EventTag where
  event : String
deriving DecidableEq, Repr

/-- An IOC dictionary as fed to the MISP Splunk mapper. -/
structure MispInd where
  value : String
  type : String
  timestamp : Int
  tags : List EventTag
deriving DecidableEq, Repr

/-- The kvstore row the MISP mapper builds (it has no CIDR branch).
`updated` is `int(timestamp) / 1000` (Python true division; embedded as
integer division — no claim reads this field). -/
structure MispSplunkFields where
  value : String
  ioc_type : String
  updated : Int
  source : String
  tags : String
  wildcard : Option String
deriving DecidableEq, Repr

/-- Per-indicator body of `build_field_values`
(`misp_iocs_to_splunk.py` lines 158-175): note the URL branch has no
else-case for values without a `/`. -/
def misp_build_fields (ind : MispInd) : MispSplunkFields :=
  let fields : MispSplunkFields :=
    { value := ind.value
      ioc_type := strLower ind.type
      updated := ind.timestamp / 1000
      source := "RH-ISAC Vetted"
      tags := String.intercalate " | " (ind.tags.map (fun t => t.event))
      wildcard := none }
  if ind.type = "url" then
    let value := stripScheme ind.value
    if pyIn "/" value = true then
      let netloc := (splitOnce value "/").1
      let remainder := (splitOnce value "/").2
      if remainder ≠ "" ∨ pyIn "@" netloc = true ∨ pyIn ":" netloc = true then
        { fields with wildcard := some ("*" ++ value) }
      else
        { fields with ioc_type := "domain", value := strDropLast value }
    else fields
  else fields

/-- The MISP mapper's recognized-type allowlist
(`misp_iocs_to_splunk.py` line 176). -/
def mispAllowedTypes : List String :=
  ["ip-dst", "email-src", "md5", "sha256", "sha1", "domain", "url"]

/-- The skip message the MISP mapper prints for an unrecognized type. -/
def misp_type_error_msg (t : String) : String :=
  "Error parsing IOC type: " ++ t ++ " \n Please record this mesage and notify RH-ISAC staff."

/-- `build_field_values` of the MISP Splunk script: builds the row for each
indicator but skips (with a printed message) those whose type is not in the
allowlist. Returns the rows and the printed skip messages. -/
def misp_build_field_values : List MispInd → List MispSplunkFields × List String
  | [] => ([], [])
  | ind :: rest =>
    let r := misp_build_field_values rest
    if mispAllowedTypes.contains ind.type then
      (misp_build_fields ind :: r.1, r.2)
    else
      (r.1, misp_type_error_msg ind.type :: r.2)


/-! ### CrowdStrike delivery (`misp/crowdstrike/misp_iocs_crowdstrike_falcon.py`) -/

/-- The MISP-type → CrowdStrike-type map (`TYPE_MAP`, lines 27-33). -/
def TYPE_MAP : List (String × String) :=
  [("domain", "domain"), ("ip-dst", "ipv4"), ("IP6", "ipv6"),
   ("md5", "md5"), ("sha256", "sha256")]

/-- A `tags` value as `upload_iocs` receives it: `filter_results` yields a
string; the code also accepts a list (joined with `" | "`). -/
inductive TagsRep
  | str (s : String)
  | list (l : List String)
deriving DecidableEq, Repr

/-- A filtered IOC dictionary as fed to `upload_iocs` (the fields it reads). -/
structure FilteredIoc where
  value : String
  type : String
  tags : TagsRep
deriving DecidableEq, Repr

/-- The request record `upload_iocs` builds for each IOC (lines 140-156). -/
structure CsIoc where
  source : String
  action : String
  expiration : String
  description : String
  type : String
  value : String
  severity : String
  applied_globally : Bool
  platforms : List String
deriving DecidableEq, Repr

/-- The per-IOC encoding of `upload_iocs` (lines 140-156), given the mapped
CrowdStrike type. -/
def encodeIoc (expiration csType : String) (ioc : FilteredIoc) : CsIoc :=
  { source := "RH-ISAC Vetted"
    action := "detect"
    expiration := expiration
    description :=
      match ioc.tags with
      | .str s => s
      | .list l => String.intercalate " | " l
    type := csType
    value := ioc.value
    severity := "HIGH"
    applied_globally := true
    platforms := ["windows"] }

/-- Encoding of an IOC when its type has a `TYPE_MAP` entry. -/
def encodeMapped (expiration : String) (ioc : FilteredIoc) : Option CsIoc :=
  (TYPE_MAP.lookup ioc.type).map (fun t => encodeIoc expiration t ioc)

/-- The message printed for an IOC whose type has no `TYPE_MAP` entry
(line 136-138). -/
def csSkipMsg (ioc : FilteredIoc) : String :=
  "No Crowdstrike IOC type for MISP type " ++ ioc.type ++ ". Value: " ++ ioc.value

/-- The block-building loop of `upload_iocs` (lines 131-163): encode mapped
IOCs in order into `ioc_block`, flushing it to `ioc_blocks` when it reaches
200 entries; skip unmapped types with a printed message; after the loop,
append the residual non-empty block. -/
def buildBlocks (expiration : String) :
    List FilteredIoc → List (List CsIoc) → List CsIoc → List String →
    List (List CsIoc) × List String
  | [], blocks, block, msgs =>
    (if block.isEmpty then blocks else blocks ++ [block], msgs)
  | ioc :: rest, blocks, block, msgs =>
    match TYPE_MAP.lookup ioc.type with
    | none => buildBlocks expiration rest blocks block (msgs ++ [csSkipMsg ioc])
    | some t =>
      let block2 := block ++ [encodeIoc expiration t ioc]
      if 200 ≤ block2.length then buildBlocks expiration rest (blocks ++ [block2]) [] msgs
      else buildBlocks expiration rest blocks block2 msgs

/-- The partitioning phase of `upload_iocs`: blocks of encoded IOCs and the
skip messages. -/
def upload_blocks (expiration : String) (iocs : List FilteredIoc) :
    List (List CsIoc) × List String :=
  buildBlocks expiration iocs [] [] []

/-- One entry of the `resources` array of a 400 response body. -/
structure FalconError where
  message : String
  value : String
deriving DecidableEq, Repr

/-- A CrowdStrike `indicator_create` response: status code and the error
resources of the body. -/
structure FalconResponse where
  status_code : Int
  resources : List FalconError
deriving DecidableEq, Repr

/-- The duplicate-removal pass of `upload_iocs` (lines 195-199):
`for ioc in block: if ioc.get("value") == duplicate_ioc_value: block.remove(ioc)`.
Python iterates by index over the list it is mutating, so the element that
slides into a removed element's slot is skipped; `block.remove` drops the
first element structurally equal to `ioc`. Embedded with the iteration index
`i` and fuel (`block.length` suffices since `i` grows every step). -/
def removeLoop : Nat → String → List CsIoc → Nat → List CsIoc
  | 0, _, block, _ => block
  | fuel + 1, v, block, i =>
    if h : i < block.length then
      let ioc := block.get ⟨i, h⟩
      if ioc.value = v then removeLoop fuel v (block.erase ioc) (i + 1)
      else removeLoop fuel v block (i + 1)
    else block

/-- One full duplicate-value removal pass over a block. -/
def removeDuplicates (v : String) (block : List CsIoc) : List CsIoc :=
  removeLoop block.length v block 0

/-- Error handling of a 400 response body (lines 191-202): for each error
whose message contains `Warning: Duplicate type`, run the removal pass for
its value; other errors are only printed. -/
def processErrors (errors : List FalconError) (block : List CsIoc) : List CsIoc :=
  errors.foldl
    (fun b e =>
      if pyIn "Warning: Duplicate type" e.message then removeDuplicates e.value b else b)
    block

/-- The IOC values named by duplicate-type warnings in a response body. -/
def dupValues (errors : List FalconError) : List String :=
  (errors.filter (fun e => pyIn "Warning: Duplicate type" e.message)).map (fun e => e.value)

/-- Submission of one block (lines 166-228): submit it; if and only if the
response status is 400, remove the duplicate-flagged IOCs and submit the
reduced block exactly once more (the second response is only printed, never
retried). Returns the sequence of submissions made. -/
def handleBlock (respond : List CsIoc → FalconResponse) (block : List CsIoc) :
    List (List CsIoc) :=
  let response := respond block
  if response.status_code = 400 then
    [block, processErrors response.resources block]
  else [block]

/-- `upload_iocs` (lines 107-229): build the blocks from the filtered IOCs
and submit each; returns every submission made and the skip messages. -/
def upload_iocs (respond : List CsIoc → FalconResponse) (expiration : String)
    (iocs : List FilteredIoc) : List (List CsIoc) × List String :=
  let built := upload_blocks expiration iocs
  ((built.1.map (handleBlock respond)).flatten, built.2)

/-- Example encoded IOC for the duplicate-removal counterexample. -/
def dupIoc : CsIoc :=
  ⟨"RH-ISAC Vetted", "detect", "2026-01-01T00:00:00.000Z", "", "domain",
   "dup.example.com", "HIGH", true, ["windows"]⟩

/-- Example duplicate-type warning naming `dupIoc`'s value. -/
def dupWarning : FalconError :=
  ⟨"Warning: Duplicate type used in indicator", "dup.example.com"⟩

/-- A responder that always answers 400 with the duplicate warning. -/
def resp400 : List CsIoc → FalconResponse := fun _ => ⟨400, [dupWarning]⟩

/-! ### CSV writers and tag flattening

`trustar/v1.3/generic/get_trustar_iocs.py` (`ind_dict_to_csv`),
`trustar/generic/get_24h_trustar2_iocs_csv.py` (`obl_dict_to_csv`) and
`misp/generic/get_24h_misp_vetted_iocs_csv.py` (`ioc_dicts_to_csv`). -/

/-- A tag as it appears in an indicator dictionary: a `{"name": …}` object
or a plain string. -/
inductive PyTag
  | obj (name : String)
  | str (s : String)
deriving DecidableEq, Repr

/-- A value of an indicator dictionary as the CSV writers consume it. -/
inductive PyVal
  | str (s : String)
  | int (n : Int)
  | tagList (ts : List PyTag)
deriving DecidableEq, Repr

/-- An indicator dictionary: ordered key/value pairs. -/
abbrev PyDict := List (String × PyVal)

/-- `t['name']`; `none` models the `TypeError` raised on a non-dict tag. -/
def tagNameOf : PyTag → Option String
  | .obj n => some n
  | .str _ => none

/-- A tag used directly as a string for joining; `none` models the
`TypeError` raised by `"|".join` on a dict. -/
def tagAsStr : PyTag → Option String
  | .str s => some s
  | .obj _ => none

/-- The per-record tag flattening of `ind_dict_to_csv` / `obl_dict_to_csv`:
if the tag list is non-empty and its first entry is a dict, take each entry's
`name`; otherwise take the entries themselves as strings. -/
def flattenTags : List PyTag → Option (List String)
  | [] => some []
  | t :: ts =>
    match t with
    | .obj _ => (t :: ts).mapM tagNameOf
    | .str _ => (t :: ts).mapM tagAsStr

/-- Python truthiness of an embedded value. -/
def pyTruthy : PyVal → Bool
  | .str s => !(s == "")
  | .int n => !(n == 0)
  | .tagList ts => !ts.isEmpty

/-- Python `str()` of an embedded value (lists of dicts render with single
quotes, as Python `repr` does). -/
def pyStr : PyVal → String
  | .str s => s
  | .int n => toString n
  | .tagList ts =>
    "[" ++ String.intercalate ", " (ts.map (fun t =>
      match t with
      | .obj n => "\x7b'name': '" ++ n ++ "'\x7d"
      | .str s => "'" ++ s ++ "'")) ++ "]"

/-- Iterating a tags value: a list yields its tags, a string yields its
characters (Python string iteration), an integer raises (`none`). -/
def iterTags : PyVal → Option (List PyTag)
  | .tagList ts => some ts
  | .str s => some (s.data.map (fun c => PyTag.str (String.mk [c])))
  | .int _ => none

/-- `ind.get('tags', ())` as the v1.3 writer's tag handling sees it:
a missing key yields the empty default. -/
def tagsValueOf (ind : PyDict) : Option (List PyTag) :=
  match List.lookup "tags" ind with
  | some v => iterTags v
  | none => some []

/-- The CSV header (`ind_dict_to_csv` lines 44-49 and the same code in the
other two writers): the first record's keys with `tags`, when present, moved
to the end. -/
def csvHeader (first : PyDict) : List String :=
  let header := first.map Prod.fst
  if header.contains "tags" then header.erase "tags" ++ ["tags"] else header

/-- One data row of `ind_dict_to_csv` (lines 54-63): the non-tags fields in
header order (`ind[rh]`; a missing key raises, the row is logged and
skipped), then the flattened tags — one `|`-joined cell, or one cell per tag
when `split_tags` is set. -/
def rowOfInd (header : List String) (split_tags : Bool) (ind : PyDict) :
    Option (List PyVal) := do
  let base ← (header.filter (fun h => !(h == "tags"))).mapM (fun rh => List.lookup rh ind)
  let ts ← tagsValueOf ind
  let flat ← flattenTags ts
  if split_tags then pure (base ++ flat.map PyVal.str)
  else pure (base ++ [PyVal.str (String.intercalate "|" flat)])

/-- `ind_dict_to_csv` (lines 25-67): `none` on empty input (`indicators[0]`
raises `IndexError`); otherwise the header, the successfully written rows,
and the records whose row raised (logged and skipped). -/
def ind_dict_to_csv (inds : List PyDict) (split_tags : Bool) :
    Option (List String × List (List PyVal) × List PyDict) :=
  match inds with
  | [] => none
  | first :: _ =>
    let header := csvHeader first
    some (header, inds.filterMap (rowOfInd header split_tags),
      inds.filter (fun i => (rowOfInd header split_tags i).isNone))

/-- One data row of `obl_dict_to_csv` (`get_24h_trustar2_iocs_csv.py` lines
47-56): like the v1.3 writer, but the tags cell is appended only when the
record's tags value is truthy. -/
def rowOfObl (header : List String) (obl : PyDict) : Option (List PyVal) := do
  let base ← (header.filter (fun h => !(h == "tags"))).mapM (fun rh => List.lookup rh obl)
  match List.lookup "tags" obl with
  | some v =>
    if pyTruthy v then do
      let ts ← iterTags v
      let flat ← flattenTags ts
      pure (base ++ [PyVal.str (String.intercalate "|" flat)])
    else pure base
  | none => pure base

/-- `obl_dict_to_csv` (lines 22-59). -/
def obl_dict_to_csv (obls : List PyDict) :
    Option (List String × List (List PyVal) × List PyDict) :=
  match obls with
  | [] => none
  | first :: _ =>
    let header := csvHeader first
    some (header, obls.filterMap (rowOfObl header),
      obls.filter (fun o => (rowOfObl header o).isNone))

/-- One data row of `ioc_dicts_to_csv`
(`get_24h_misp_vetted_iocs_csv.py` lines 132-137): the non-tags fields, then
— only when the record's tags value is truthy —
`str(ioc.get('tags')).replace('"', "'")`. -/
def rowOfIocDict (header : List String) (ioc : PyDict) : Option (List PyVal) := do
  let base ← (header.filter (fun h => !(h == "tags"))).mapM (fun rh => List.lookup rh ioc)
  match List.lookup "tags" ioc with
  | some v =>
    if pyTruthy v then pure (base ++ [PyVal.str (replaceQuotes (pyStr v))])
    else pure base
  | none => pure base

/-- `ioc_dicts_to_csv` (lines 106-140). -/
def ioc_dicts_to_csv (iocs : List PyDict) :
    Option (List String × List (List PyVal) × List PyDict) :=
  match iocs with
  | [] => none
  | first :: _ =>
    let header := csvHeader first
    some (header, iocs.filterMap (rowOfIocDict header),
      iocs.filter (fun i => (rowOfIocDict header i).isNone))

/-- Example record for the CSV witnesses: a value and dict-shaped tags. -/
def csvInd : PyDict :=
  [("value", PyVal.str "v"), ("tags", PyVal.tagList [PyTag.obj "a", PyTag.obj "b"])]

/-- Example record for the C8 counterexample: present but empty tags. -/
def emptyTagsIoc : PyDict := [("value", PyVal.str "v"), ("tags", PyVal.str "")]

/-! ### MISP `filter_results` (vetted-tag exclusion)

`misp/generic/get_24h_misp_vetted_iocs_csv.py` lines 77-104 and
`misp/crowdstrike/misp_iocs_crowdstrike_falcon.py` lines 75-104 (identical
code). -/

/-- A MISP tag object (`{"name": …}`). -/
structure TagObj where
  name : String
deriving DecidableEq, Repr

/-- A value of a raw MISP attribute dictionary as `filter_results` reads it. -/
inductive AttrVal
  | str (s : String)
  | tags (ts : List TagObj)
  | event (info : String)
deriving DecidableEq, Repr

/-- `OUTPUT_FIELDS` (line 20 / line 40). -/
def OUTPUT_FIELDS : List String := ["value", "type", "timestamp", "Tag", "Event"]

/-- `VETTED_TAG` (line 22 / line 42). -/
def VETTED_TAG : String := "rhisac: vetted"

/-- One record through `filter_results`: keep only `OUTPUT_FIELDS`, turning
`Tag` into a pipe-joined `tags` string that drops the vetted marker, and
`Event` into its `info`; `none` models a raised error on an ill-typed
field. -/
def filter_results_one : List (String × AttrVal) → Option (List (String × AttrVal))
  | [] => some []
  | (k, v) :: rest =>
    if OUTPUT_FIELDS.contains k then
      if k == "Tag" then
        match v with
        | .tags ts =>
          (filter_results_one rest).map (fun keep =>
            ("tags", AttrVal.str (String.intercalate "|"
              ((ts.filter (fun x => !(x.name == VETTED_TAG))).map (fun x => x.name)))) :: keep)
        | _ => none
      else if k == "Event" then
        match v with
        | .event info =>
          (filter_results_one rest).map (fun keep => ("event", AttrVal.str info) :: keep)
        | _ => none
      else (filter_results_one rest).map (fun keep => (k, v) :: keep)
    else filter_results_one rest

/-- `filter_results` over a result list. -/
def filter_results (iocs : List (List (String × AttrVal))) :
    Option (List (List (String × AttrVal))) :=
  iocs.mapM filter_results_one

/-- Example attribute for the C10 witness: a vetted marker plus one tag. -/
def vettedExampleIoc : List (String × AttrVal) :=
  [("Tag", AttrVal.tags [⟨"rhisac: vetted"⟩, ⟨"a"⟩])]

/-- Example record: a URL that is only a user-qualified host. -/
def urlUserInd : TsObl := ⟨"http://user@example.com", "URL", 0, []⟩

/-- Example record: a bare-domain URL. -/
def urlBareInd : TsObl := ⟨"http://example.com", "URL", 0, []⟩

/-- Example record: a bare domain with a trailing slash. -/
def urlSlashInd : TsObl := ⟨"http://example.com/", "URL", 0, []⟩

/-- Example record: a URL with a real path. -/
def urlPathInd : TsObl := ⟨"http://example.com/path", "URL", 0, []⟩

/-- Example record for the MISP mapper: a bare-domain URL. -/
def urlBareMispInd : MispInd := ⟨"http://example.com", "url", 0, []⟩

/-- Example record for the MISP mapper: an unrecognized indicator type. -/
def fooTypeInd : MispInd := ⟨"1.2.3.4", "foo", 0, []⟩

/-! ### Lemmas and claim theorems -/

/-- In a page sorted by `last_seen` descending (the order the TruSTAR search
API returns, as the code comment on line 187 records), the last item carries
the minimum `last_seen` of the page. -/
theorem getLast_eq_minLastSeen (i : PageItem) (is : List PageItem)
    (hsorted : List.Pairwise (fun a b => b.lastSeen ≤ a.lastSeen) (i :: is)) :
    ((i :: is).getLast (by simp)).lastSeen = minLastSeen i is := by
  induction is generalizing i with
  | nil => simp [minLastSeen]
  | cons j t ih =>
    have hij : j.lastSeen ≤ i.lastSeen := (List.pairwise_cons.mp hsorted).1 j (by simp)
    have htail : List.Pairwise (fun a b => b.lastSeen ≤ a.lastSeen) (j :: t) :=
      (List.pairwise_cons.mp hsorted).2
    have hlast : (i :: j :: t).getLast (by simp) = (j :: t).getLast (by simp) :=
      List.getLast_cons (by simp)
    rw [hlast, ih j htail]
    simp [minLastSeen, min_eq_right hij]

/-- C1: in `retrieve_iocs`, for pages returned by the source (which orders
items by `last_seen` descending), the loop starts with `pg_to = to_time`
after flag validation passes; an empty page terminates the loop; a non-empty
page is appended to the accumulated records and `pg_to` becomes the minimum
`last_seen` of the page minus one millisecond; and the loop also terminates
when that updated `pg_to` is strictly less than `from_time`. -/
theorem retrieve_iocs_paginates_by_min_lastSeen
    (search : Int → Int → List PageItem) (from_time to_time : Int)
    (hsorted : ∀ f t, List.Pairwise (fun a b => b.lastSeen ≤ a.lastSeen) (search f t)) :
    (∀ only_vals only_vt fuel, (only_vals && only_vt) = false →
      retrieve_iocs search from_time to_time only_vals only_vt fuel =
        { iocs := (search_loop search from_time fuel to_time []).1,
          queries := (search_loop search from_time fuel to_time []).2,
          messages := [] }) ∧
    (∀ fuel pg_to acc, search from_time pg_to = [] →
      search_loop search from_time (fuel + 1) pg_to acc = (acc, 1)) ∧
    (∀ fuel pg_to acc i is, search from_time pg_to = i :: is →
      search_loop search from_time (fuel + 1) pg_to acc =
        if minLastSeen i is - 1 < from_time then (acc ++ i :: is, 1)
        else
          ((search_loop search from_time fuel (minLastSeen i is - 1) (acc ++ i :: is)).1,
           (search_loop search from_time fuel (minLastSeen i is - 1) (acc ++ i :: is)).2 + 1)) := by
  refine ⟨?_, ?_, ?_⟩
  · intro only_vals only_vt fuel h
    simp [retrieve_iocs, h]
  · intro fuel pg_to acc hempty
    simp only [search_loop]
    split
    · rfl
    · next i is heq => rw [hempty] at heq; cases heq
  · intro fuel pg_to acc i is hpage
    have hsorted' : List.Pairwise (fun a b => b.lastSeen ≤ a.lastSeen) (i :: is) := by
      have := hsorted from_time pg_to; rwa [hpage] at this
    simp only [search_loop]
    split
    · next heq => rw [hpage] at heq; cases heq
    · next i' is' heq =>
      rw [hpage] at heq
      cases heq
      simp only [getLast_eq_minLastSeen i is hsorted']

/-- Witness for `retrieve_iocs_paginates_by_min_lastSeen` at the always-empty
source: the loop terminates on the first (empty) page. -/
theorem retrieve_iocs_paginates_by_min_lastSeen_witness :
    search_loop (fun _ _ => []) 0 1 5 [] = ([], 1) :=
  (retrieve_iocs_paginates_by_min_lastSeen (fun _ _ => []) 0 5
    (fun _ _ => List.Pairwise.nil)).2.1 0 5 [] rfl

/-- One-step unfolding of `search_loop` on an empty page. -/
theorem search_loop_page_nil (search : Int → Int → List PageItem) (from_time : Int)
    (fuel : Nat) (pg_to : Int) (acc : List PageItem)
    (hpage : search from_time pg_to = []) :
    search_loop search from_time (fuel + 1) pg_to acc = (acc, 1) := by
  simp only [search_loop]
  split
  · rfl
  · next i is heq => rw [hpage] at heq; cases heq

/-- One-step unfolding of `search_loop` on a non-empty page, phrased through
the page's last `last_seen` value `e`. -/
theorem search_loop_page_cons (search : Int → Int → List PageItem) (from_time : Int)
    (fuel : Nat) (pg_to : Int) (acc : List PageItem) (i : PageItem) (is : List PageItem)
    (e : Int) (hpage : search from_time pg_to = i :: is)
    (he : ((i :: is).getLast (by simp)).lastSeen = e) :
    search_loop search from_time (fuel + 1) pg_to acc =
      if e - 1 < from_time then (acc ++ i :: is, 1)
      else
        ((search_loop search from_time fuel (e - 1) (acc ++ i :: is)).1,
         (search_loop search from_time fuel (e - 1) (acc ++ i :: is)).2 + 1) := by
  subst he
  simp only [search_loop]
  split
  · next heq => rw [hpage] at heq; cases heq
  · next i' is' heq => rw [hpage] at heq; cases heq; rfl

/-- In a page sorted by `last_seen` descending, the last item's `last_seen`
bounds every item's `last_seen` from below. -/
theorem getLast_lastSeen_le (i : PageItem) (is : List PageItem)
    (hsorted : List.Pairwise (fun a b => b.lastSeen ≤ a.lastSeen) (i :: is)) :
    ∀ x ∈ i :: is, ((i :: is).getLast (by simp)).lastSeen ≤ x.lastSeen := by
  induction is generalizing i with
  | nil => intro x hx; simp at hx; subst hx; simp
  | cons j t ih =>
    intro x hx
    have hij : j.lastSeen ≤ i.lastSeen := (List.pairwise_cons.mp hsorted).1 j (by simp)
    have htail : List.Pairwise (fun a b => b.lastSeen ≤ a.lastSeen) (j :: t) :=
      (List.pairwise_cons.mp hsorted).2
    have hlast : (i :: j :: t).getLast (by simp) = (j :: t).getLast (by simp) :=
      List.getLast_cons (by simp)
    rw [hlast]
    rcases List.mem_cons.mp hx with h | h
    · subst h
      exact le_trans (ih j htail j (by simp)) hij
    · exact ih j htail x h

/-- What a synthetic query returns when `L` splits into a prefix above the
cursor and a suffix at or below it. -/
theorem syntheticSearch_eq (L pre rest : List PageItem) (P : Nat) (f t : Int)
    (hL : L = pre ++ rest)
    (hpre : ∀ r ∈ pre, t < r.lastSeen)
    (hrest : ∀ r ∈ rest, f ≤ r.lastSeen ∧ r.lastSeen ≤ t) :
    syntheticSearch L P f t = rest.take P := by
  unfold syntheticSearch
  rw [hL, List.filter_append]
  have h1 : pre.filter (fun r => decide (f ≤ r.lastSeen) && decide (r.lastSeen ≤ t)) = [] := by
    rw [List.filter_eq_nil_iff]
    intro r hr
    have := hpre r hr
    simp only [Bool.and_eq_true, decide_eq_true_eq]
    omega
  have h2 : rest.filter (fun r => decide (f ≤ r.lastSeen) && decide (r.lastSeen ≤ t)) = rest := by
    rw [List.filter_eq_self]
    intro r hr
    have := hrest r hr
    simp only [Bool.and_eq_true, decide_eq_true_eq]
    omega
  rw [h1, h2, List.nil_append]

/-- Ceiling-division arithmetic for the page-count bound. -/
theorem ceil_div_step (m P : Nat) (hP : 0 < P) (hm : 0 < m) :
    (m - P + P - 1) / P + 1 ≤ (m + P - 1) / P := by
  by_cases h : m ≤ P
  · have h0 : m - P = 0 := Nat.sub_eq_zero_of_le h
    rw [h0, Nat.zero_add, Nat.div_eq_of_lt (by omega), Nat.zero_add]
    rw [Nat.one_le_div_iff hP]
    omega
  · have h1 : m - P + P - 1 = m - 1 := by omega
    have h2 : m + P - 1 = (m - 1) + P := by omega
    rw [h1, h2, Nat.add_div_right _ hP]

/-- Invariant form of the synthetic pagination run: the loop, started at a
cursor that splits `L` into a consumed prefix and a remaining suffix,
collects exactly the suffix and issues at most `ceil(|suffix| / P) + 1`
queries. -/
theorem search_loop_synthetic (L : List PageItem) (P : Nat) (from_time : Int)
    (hP : 0 < P)
    (hdesc : List.Pairwise (fun a b => b.lastSeen < a.lastSeen) L)
    (hwin : ∀ r ∈ L, from_time ≤ r.lastSeen) :
    ∀ fuel pre rest pg_to acc, L = pre ++ rest →
      (∀ r ∈ pre, pg_to < r.lastSeen) →
      (∀ r ∈ rest, r.lastSeen ≤ pg_to) →
      rest.length + 1 ≤ fuel →
      (search_loop (syntheticSearch L P) from_time fuel pg_to acc).1 = acc ++ rest ∧
      (search_loop (syntheticSearch L P) from_time fuel pg_to acc).2 ≤
        (rest.length + P - 1) / P + 1 := by
  intro fuel
  induction fuel with
  | zero => intro pre rest pg_to acc _ _ _ hfuel; omega
  | succ f ih =>
    intro pre rest pg_to acc hL hpre hrest hfuel
    have hrest' : ∀ r ∈ rest, from_time ≤ r.lastSeen ∧ r.lastSeen ≤ pg_to := by
      intro r hr
      exact ⟨hwin r (hL ▸ List.mem_append_right pre hr), hrest r hr⟩
    have hpage := syntheticSearch_eq L pre rest P from_time pg_to hL hpre hrest'
    by_cases hempty : rest = []
    · subst hempty
      rw [search_loop_page_nil _ _ _ _ _ (by simpa using hpage)]
      exact ⟨by simp, Nat.succ_le_succ (Nat.zero_le _)⟩
    · obtain ⟨x, xs, hx⟩ := List.exists_cons_of_ne_nil hempty
      have htake_ne : rest.take P ≠ [] := by
        subst hx
        cases P with
        | zero => omega
        | succ p => simp
      obtain ⟨i, is, hiis⟩ := List.exists_cons_of_ne_nil htake_ne
      have hpage' : syntheticSearch L P from_time pg_to = i :: is := by rw [hpage, hiis]
      -- the remaining records are sorted descending
      have hrest_desc : List.Pairwise (fun a b => b.lastSeen < a.lastSeen) rest := by
        rw [hL] at hdesc
        exact (List.pairwise_append.mp hdesc).2.1
      have htake_desc : List.Pairwise (fun a b => b.lastSeen ≤ a.lastSeen) (i :: is) := by
        rw [← hiis]
        exact ((hrest_desc.sublist (List.take_sublist P rest)).imp (fun h => le_of_lt h))
      obtain ⟨e, he⟩ : ∃ e, ((i :: is).getLast (by simp)).lastSeen = e := ⟨_, rfl⟩
      have hlast_mem : (i :: is).getLast (by simp) ∈ i :: is := List.getLast_mem (by simp)
      have hlast_take : (i :: is).getLast (by simp) ∈ rest.take P := by
        rw [hiis]; exact hlast_mem
      -- the last-of-page bounds every page element from below
      have hmin_page : ∀ r ∈ i :: is, e ≤ r.lastSeen := by
        intro r hr
        rw [← he]
        exact getLast_lastSeen_le i is htake_desc r hr
      -- and strictly bounds every dropped (older) element from above
      have hdrop_lt : ∀ y ∈ rest.drop P, y.lastSeen < e := by
        intro y hy
        rw [← he]
        have hsplit : List.Pairwise (fun a b => b.lastSeen < a.lastSeen)
            (rest.take P ++ rest.drop P) := by
          rw [List.take_append_drop]; exact hrest_desc
        exact (List.pairwise_append.mp hsplit).2.2 _ hlast_take y hy
      have he_le_pg : e ≤ pg_to := by
        rw [← he]
        exact (hrest' _ (List.mem_of_mem_take hlast_take)).2
      rw [search_loop_page_cons _ _ _ _ _ _ _ _ hpage' he]
      by_cases hstop : e - 1 < from_time
      · rw [if_pos hstop]
        have hdrop_nil : rest.drop P = [] := by
          rw [List.eq_nil_iff_forall_not_mem]
          intro y hy
          have h1 := hdrop_lt y hy
          have h2 := hwin y (hL ▸ List.mem_append_right pre (List.mem_of_mem_drop hy))
          omega
        have hlen : rest.length ≤ P := by
          have := List.length_drop P rest
          rw [hdrop_nil] at this
          simp at this
          omega
        have htake_all : rest.take P = rest := List.take_of_length_le hlen
        rw [← hiis, htake_all]
        exact ⟨rfl, Nat.succ_le_succ (Nat.zero_le _)⟩
      · rw [if_neg hstop]
        have hkey := ih (pre ++ rest.take P) (rest.drop P) (e - 1) (acc ++ i :: is)
          (by rw [hL, List.append_assoc, List.take_append_drop])
          (by
            intro r hr
            rcases List.mem_append.mp hr with h | h
            · have h1 := hpre r h
              omega
            · have := hmin_page r (hiis ▸ h)
              omega)
          (by
            intro r hr
            have := hdrop_lt r hr
            omega)
          (by
            have hlen_drop : (rest.drop P).length = rest.length - P := List.length_drop P rest
            have hrlen : 1 ≤ rest.length := by
              subst hx; simp
            omega)
        refine ⟨?_, ?_⟩
        · rw [hkey.1, ← hiis, List.append_assoc, List.take_append_drop]
        · have h2 := hkey.2
          have hlen_drop : (rest.drop P).length = rest.length - P := List.length_drop P rest
          rw [hlen_drop] at h2
          have hrlen : 1 ≤ rest.length := by subst hx; simp
          have hstep := ceil_div_step rest.length P hP (by omega)
          omega

/-- C3: over a synthetic source holding `N` records with pairwise distinct,
strictly decreasing `last_seen` timestamps inside the query window, served in
pages of at most `P` records, the pagination loop of `retrieve_iocs`
terminates within at most `ceil(N / P) + 1` page queries and collects exactly
the `N` records, each exactly once, none skipped. -/
theorem retrieve_iocs_synthetic_pagination (L : List PageItem) (P : Nat)
    (from_time to_time : Int) (hP : 0 < P)
    (hdesc : List.Pairwise (fun a b => b.lastSeen < a.lastSeen) L)
    (hwin : ∀ r ∈ L, from_time ≤ r.lastSeen ∧ r.lastSeen ≤ to_time) :
    (search_loop (syntheticSearch L P) from_time (L.length + 1) to_time []).1 = L ∧
    (search_loop (syntheticSearch L P) from_time (L.length + 1) to_time []).2 ≤
      (L.length + P - 1) / P + 1 ∧
    ((search_loop (syntheticSearch L P) from_time (L.length + 1) to_time []).1).Nodup := by
  have hmain := search_loop_synthetic L P from_time hP hdesc (fun r hr => (hwin r hr).1)
    (L.length + 1) [] L to_time [] rfl (by simp) (fun r hr => (hwin r hr).2) (le_refl _)
  have h1 : (search_loop (syntheticSearch L P) from_time (L.length + 1) to_time []).1 = L := by
    rw [hmain.1]; simp
  refine ⟨h1, hmain.2, ?_⟩
  rw [h1]
  exact hdesc.imp (fun h => by intro heq; subst heq; exact absurd h (lt_irrefl _))

/-- Witness for `retrieve_iocs_synthetic_pagination`: three records fetched
in pages of two. -/
theorem retrieve_iocs_synthetic_pagination_witness :
    (search_loop (syntheticSearch [⟨"a", 5⟩, ⟨"b", 4⟩, ⟨"c", 3⟩] 2) 0 4 10 []).1 =
      [⟨"a", 5⟩, ⟨"b", 4⟩, ⟨"c", 3⟩] ∧
    (search_loop (syntheticSearch [⟨"a", 5⟩, ⟨"b", 4⟩, ⟨"c", 3⟩] 2) 0 4 10 []).2 ≤
      (3 + 2 - 1) / 2 + 1 ∧
    ((search_loop (syntheticSearch [⟨"a", 5⟩, ⟨"b", 4⟩, ⟨"c", 3⟩] 2) 0 4 10 []).1).Nodup :=
  retrieve_iocs_synthetic_pagination [⟨"a", 5⟩, ⟨"b", 4⟩, ⟨"c", 3⟩] 2 0 10
    (by decide) (by decide) (by decide)

/-- C9 counterexample: with both `only_vals` and `only_vt` set, the run
prints the validation error and makes no query, but the process ends with
exit status 0 — not the non-zero exit the claim states. -/
theorem both_flags_zero_exit_counterexample :
    (script_main (fun _ _ => [⟨"x", 1⟩]) 0 10 true true 3).exitCode = 0 ∧
    (script_main (fun _ _ => [⟨"x", 1⟩]) 0 10 true true 3).queries = 0 ∧
    (script_main (fun _ _ => [⟨"x", 1⟩]) 0 10 true true 3).messages =
      [bothFlagsMsg, "No IOCs matched the query. Nothing to output."] :=
  ⟨rfl, rfl, rfl⟩

/-- C9 (amended): when both mutually exclusive flags are supplied, the run is
rejected — the error message is printed and no query is made — but the
process then prints `No IOCs matched the query. Nothing to output.` and exits
with status 0 (the script never exits with a non-zero code on this path). -/
theorem both_flags_rejected_without_query (search : Int → Int → List PageItem)
    (from_time to_time : Int) (fuel : Nat) :
    retrieve_iocs search from_time to_time true true fuel =
      { iocs := [], queries := 0, messages := [bothFlagsMsg] } ∧
    script_main search from_time to_time true true fuel =
      { messages := [bothFlagsMsg, "No IOCs matched the query. Nothing to output."],
        queries := 0, exitCode := 0 } :=
  ⟨rfl, rfl⟩

/-! ### Splunk field mappers (`build_field_values`)

`trustar/splunk/trustar2_iocs_to_splunk.py` lines 137-181 and
`misp/splunk/misp_iocs_to_splunk.py` lines 143-180. -/

/-- C2 counterexample: after scheme stripping, `http://user@example.com`
contains no `/`, yet the TruSTAR mapper keeps it typed `url` — the claimed
rule "if no '/' remains in the value, retype it as Domain" fails there; and
the MISP variant keeps even the bare `http://example.com` typed `url`,
against the claim's first example. -/
theorem url_reclassification_counterexample :
    pyIn "/" (stripScheme urlUserInd.value) = false ∧
    (trustar_build_fields urlUserInd).ioc_type = "url" ∧
    ¬ (trustar_build_fields urlUserInd).ioc_type = "domain" ∧
    pyIn "/" (stripScheme urlBareMispInd.value) = false ∧
    (misp_build_fields urlBareMispInd).ioc_type = "url" ∧
    ¬ (misp_build_fields urlBareMispInd).ioc_type = "domain" :=
  ⟨rfl, rfl, by decide, rfl, rfl, by decide⟩

/-- C2 (amended): the TruSTAR URL reclassifier strips the scheme; with no `/`
remaining it retypes as Domain only when neither `@` nor `:` appears
(otherwise the value stays `url` with no wildcard); with a `/` it splits off
the network location — empty path and no `@`/`:` in the netloc retypes as
Domain dropping the trailing slash, anything else stays `url` with wildcard
`*value`. The MISP variant has no branch for slash-free values at all, so
they always keep type `url`. The four spec examples hold for the TruSTAR
mapper. -/
theorem url_reclassification_amended :
    (∀ ind : TsObl, ind.indicatorType = "URL" →
      (pyIn "/" (stripScheme ind.value) = false →
        pyIn "@" (stripScheme ind.value) = false →
        pyIn ":" (stripScheme ind.value) = false →
        (trustar_build_fields ind).ioc_type = "domain" ∧
        (trustar_build_fields ind).value = stripScheme ind.value ∧
        (trustar_build_fields ind).wildcard = none) ∧
      (pyIn "/" (stripScheme ind.value) = false →
        (pyIn "@" (stripScheme ind.value) = true ∨ pyIn ":" (stripScheme ind.value) = true) →
        (trustar_build_fields ind).ioc_type = "url" ∧
        (trustar_build_fields ind).value = ind.value ∧
        (trustar_build_fields ind).wildcard = none) ∧
      (pyIn "/" (stripScheme ind.value) = true →
        ((splitOnce (stripScheme ind.value) "/").2 ≠ "" ∨
          pyIn "@" (splitOnce (stripScheme ind.value) "/").1 = true ∨
          pyIn ":" (splitOnce (stripScheme ind.value) "/").1 = true) →
        (trustar_build_fields ind).ioc_type = "url" ∧
        (trustar_build_fields ind).value = ind.value ∧
        (trustar_build_fields ind).wildcard = some ("*" ++ stripScheme ind.value)) ∧
      (pyIn "/" (stripScheme ind.value) = true →
        (splitOnce (stripScheme ind.value) "/").2 = "" →
        pyIn "@" (splitOnce (stripScheme ind.value) "/").1 = false →
        pyIn ":" (splitOnce (stripScheme ind.value) "/").1 = false →
        (trustar_build_fields ind).ioc_type = "domain" ∧
        (trustar_build_fields ind).value = strDropLast (stripScheme ind.value) ∧
        (trustar_build_fields ind).wildcard = none)) ∧
    (∀ ind : MispInd, ind.type = "url" →
      pyIn "/" (stripScheme ind.value) = false →
      (misp_build_fields ind).ioc_type = "url" ∧
      (misp_build_fields ind).value = ind.value ∧
      (misp_build_fields ind).wildcard = none) ∧
    ((trustar_build_fields urlBareInd).ioc_type = "domain" ∧
      (trustar_build_fields urlBareInd).value = "example.com") ∧
    ((trustar_build_fields urlSlashInd).ioc_type = "domain" ∧
      (trustar_build_fields urlSlashInd).value = "example.com") ∧
    ((trustar_build_fields urlPathInd).ioc_type = "url" ∧
      (trustar_build_fields urlPathInd).wildcard = some "*example.com/path") ∧
    ((trustar_build_fields urlUserInd).ioc_type = "url" ∧
      (trustar_build_fields urlUserInd).wildcard = none) := by
  refine ⟨?_, ?_, ⟨rfl, rfl⟩, ⟨rfl, rfl⟩, ⟨rfl, rfl⟩, ⟨rfl, rfl⟩⟩
  · intro ind h
    obtain ⟨v, t, ls, tg⟩ := ind
    dsimp only at h
    subst h
    refine ⟨?_, ?_, ?_, ?_⟩
    · intro h1 h2 h3
      dsimp only at h1 h2 h3 ⊢
      simp only [trustar_build_fields]
      rw [if_neg (by decide), if_pos (by trivial)]
      rw [if_neg (by rw [h1]; decide)]
      rw [if_pos ⟨h2, h3⟩]
      exact ⟨rfl, rfl, rfl⟩
    · intro h1 h23
      dsimp only at h1 h23 ⊢
      simp only [trustar_build_fields]
      rw [if_neg (by decide), if_pos (by trivial)]
      rw [if_neg (by rw [h1]; decide)]
      rw [if_neg (by rcases h23 with h2 | h2 <;> simp [h2])]
      exact ⟨rfl, rfl, rfl⟩
    · intro h1 hcond
      dsimp only at h1 hcond ⊢
      simp only [trustar_build_fields]
      rw [if_neg (by decide), if_pos (by trivial)]
      rw [if_pos h1]
      rw [if_pos hcond]
      exact ⟨rfl, rfl, rfl⟩
    · intro h1 h2 h3 h4
      dsimp only at h1 h2 h3 h4 ⊢
      simp only [trustar_build_fields]
      rw [if_neg (by decide), if_pos (by trivial)]
      rw [if_pos h1]
      rw [if_neg (by simp [h2, h3, h4])]
      exact ⟨rfl, rfl, rfl⟩
  · intro ind h hns
    obtain ⟨v, t, ts0, tg⟩ := ind
    dsimp only at h hns
    subst h
    simp only [misp_build_fields]
    rw [if_pos (by trivial)]
    rw [if_neg (by rw [hns]; decide)]
    exact ⟨rfl, rfl, rfl⟩

/-- Witness for `url_reclassification_amended`: the bare-domain example run
through the no-slash branch. -/
theorem url_reclassification_amended_witness :
    (trustar_build_fields urlBareInd).ioc_type = "domain" ∧
    (trustar_build_fields urlBareInd).value = stripScheme urlBareInd.value ∧
    (trustar_build_fields urlBareInd).wildcard = none :=
  (url_reclassification_amended.1 urlBareInd rfl).1 rfl rfl rfl

/-- C4 counterexample: the MISP Splunk mapper drops a record whose type has
no mapping (printing a skip message), so the output list is shorter than the
input list. -/
theorem build_field_values_cardinality_counterexample :
    (misp_build_field_values [fooTypeInd]).1.length = 0 ∧
    ([fooTypeInd] : List MispInd).length = 1 ∧
    (misp_build_field_values [fooTypeInd]).2 = [misp_type_error_msg "foo"] :=
  ⟨rfl, rfl, rfl⟩

/-- C4 (amended): the TruSTAR Splunk mapper never drops a record (output
cardinality always equals input cardinality), and in the MISP Splunk mapper
every input record is either mapped into the output or accounted for by a
printed skip message: output length plus skip-message count equals the input
length. -/
theorem build_field_values_cardinality (inds : List TsObl) (minds : List MispInd) :
    (trustar_build_field_values inds).length = inds.length ∧
    (misp_build_field_values minds).1.length + (misp_build_field_values minds).2.length
      = minds.length := by
  constructor
  · simp [trustar_build_field_values]
  · induction minds with
    | nil => rfl
    | cons ind rest ih =>
      simp only [misp_build_field_values]
      by_cases h : mispAllowedTypes.contains ind.type = true
      · rw [if_pos h]
        dsimp only
        simp only [List.length_cons]
        omega
      · rw [if_neg h]
        dsimp only
        simp only [List.length_cons]
        omega

/-- The removal pass leaves a block unchanged when no element at or after
the iteration index carries the targeted value. -/
theorem removeLoop_no_match :
    ∀ (fuel : Nat) (v : String) (block : List CsIoc) (i : Nat),
      (∀ y ∈ block.drop i, y.value ≠ v) → removeLoop fuel v block i = block := by
  intro fuel
  induction fuel with
  | zero => intro v block i _; rfl
  | succ f ih =>
    intro v block i h
    simp only [removeLoop]
    split
    · next hi =>
      have hdrop := List.drop_eq_getElem_cons hi
      have hne : (block.get ⟨i, hi⟩).value ≠ v := by
        apply h
        rw [hdrop]
        exact List.mem_cons_self _ _
      rw [if_neg hne]
      apply ih
      intro y hy
      apply h
      rw [hdrop]
      exact List.mem_cons_of_mem _ hy
    · rfl

/-- Behaviour of the removal pass from index `pre.length` when every element
of `pre` misses the value and the whole block has pairwise distinct values:
the pass deletes exactly the (unique) matching element of the suffix. -/
theorem removeLoop_unique (v : String) :
    ∀ (suf pre : List CsIoc) (fuel : Nat), suf.length ≤ fuel →
      (∀ y ∈ pre, y.value ≠ v) →
      List.Pairwise (fun a b => a.value ≠ b.value) (pre ++ suf) →
      removeLoop fuel v (pre ++ suf) pre.length =
        pre ++ suf.filter (fun x => !(x.value == v)) := by
  intro suf
  induction suf with
  | nil =>
    intro pre fuel _ _ _
    cases fuel with
    | zero => simp [removeLoop]
    | succ f => simp [removeLoop]
  | cons x rest ih =>
    intro pre fuel hfuel hpre hpw
    cases fuel with
    | zero => simp at hfuel
    | succ f =>
      simp only [removeLoop]
      have hi : pre.length < (pre ++ x :: rest).length := by simp
      rw [dif_pos hi]
      have hget : (pre ++ x :: rest).get ⟨pre.length, hi⟩ = x := by
        simp only [List.get_eq_getElem]
        exact List.getElem_of_append rfl rfl
      rw [hget]
      have hfuel' : rest.length ≤ f := by simpa using Nat.le_of_succ_le_succ hfuel
      by_cases hx : x.value = v
      · rw [if_pos hx]
        have hxnotpre : x ∉ pre := fun hmem => hpre x hmem hx
        have herase : (pre ++ x :: rest).erase x = pre ++ rest := by
          rw [List.erase_append_right _ hxnotpre, List.erase_cons_head]
        rw [herase]
        have hrest_ne : ∀ y ∈ rest, y.value ≠ v := by
          intro y hy heq
          have hxy : x.value ≠ y.value :=
            (List.pairwise_cons.mp (List.pairwise_append.mp hpw).2.1).1 y hy
          exact hxy (by rw [hx, heq])
        rw [removeLoop_no_match f v (pre ++ rest) (pre.length + 1) ?hside]
        case hside =>
          intro y hy
          have hy' : y ∈ rest := by
            have : (pre ++ rest).drop (pre.length + 1) = rest.drop 1 :=
              @List.drop_append _ pre rest 1
            rw [this] at hy
            exact List.mem_of_mem_drop hy
          exact hrest_ne y hy'
        rw [List.filter_cons, if_neg (by simp [hx])]
        rw [List.filter_eq_self.mpr (by intro y hy; simp [hrest_ne y hy])]
      · rw [if_neg hx]
        have hassoc : pre ++ x :: rest = (pre ++ [x]) ++ rest := by simp
        have hlen : pre.length + 1 = (pre ++ [x]).length := by simp
        rw [hassoc, hlen]
        rw [ih (pre ++ [x]) f hfuel'
          (by
            intro y hy
            rcases List.mem_append.mp hy with h | h
            · exact hpre y h
            · simp at h; subst h; exact hx)
          (by rw [← hassoc]; exact hpw)]
        simp [List.filter_cons, hx]

/-- With pairwise distinct values, a full removal pass is exactly a filter
dropping the targeted value. -/
theorem removeDuplicates_filter (v : String) (block : List CsIoc)
    (hpw : List.Pairwise (fun a b => a.value ≠ b.value) block) :
    removeDuplicates v block = block.filter (fun x => !(x.value == v)) := by
  have := removeLoop_unique v block [] block.length (le_refl _) (by simp) (by simpa)
  simpa [removeDuplicates] using this

/-- With pairwise distinct values, 400-error processing filters out exactly
the values named by duplicate-type warnings. -/
theorem processErrors_filter (errors : List FalconError) :
    ∀ (block : List CsIoc), List.Pairwise (fun a b => a.value ≠ b.value) block →
      processErrors errors block =
        block.filter (fun x => !((dupValues errors).contains x.value)) := by
  induction errors with
  | nil =>
    intro block _
    simp [processErrors, dupValues, List.filter_eq_self]
  | cons e es ih =>
    intro block hpw
    simp only [processErrors, List.foldl_cons]
    by_cases he : pyIn "Warning: Duplicate type" e.message = true
    · rw [if_pos he]
      have h1 := removeDuplicates_filter e.value block hpw
      rw [h1]
      have hpw' : List.Pairwise (fun a b => a.value ≠ b.value)
          (block.filter (fun x => !(x.value == e.value))) :=
        hpw.sublist (List.filter_sublist block)
      have h2 := ih (block.filter (fun x => !(x.value == e.value))) hpw'
      simp only [processErrors] at h2
      rw [h2, List.filter_filter]
      have hdv : dupValues (e :: es) = e.value :: dupValues es := by
        simp [dupValues, List.filter_cons, he]
      rw [hdv]
      congr 1
      funext x
      by_cases hxe : x.value = e.value <;> simp [hxe, Bool.and_comm]
    · rw [if_neg he]
      have h2 := ih block hpw
      simp only [processErrors] at h2
      rw [h2]
      have hdv : dupValues (e :: es) = dupValues es := by
        simp [dupValues, List.filter_cons, he]
      rw [hdv]

/-- C5 counterexample: the removal pass mutates the list while iterating by
index, so of two equal entries carrying the duplicate-flagged value only the
first is removed — the resubmitted block still contains an IOC named by the
duplicate warning. -/
theorem upload_iocs_duplicate_retry_counterexample :
    processErrors [dupWarning] [dupIoc, dupIoc] = [dupIoc] ∧
    handleBlock resp400 [dupIoc, dupIoc] = [[dupIoc, dupIoc], [dupIoc]] ∧
    dupIoc.value = dupWarning.value :=
  ⟨rfl, rfl, rfl⟩

/-- C5 (amended): provided the IOC values within the block are pairwise
distinct, a 400 response makes `upload_iocs` remove every IOC named by a
`Warning: Duplicate type` error and resubmit the reduced block exactly once
(two submissions in total, no backoff, the second response never retried);
any other status yields exactly one submission. Without distinctness, a
later duplicate of a removed value can survive the pass (see the
counterexample). -/
theorem upload_iocs_duplicate_retry (respond : List CsIoc → FalconResponse)
    (block : List CsIoc)
    (hvals : List.Pairwise (fun a b => a.value ≠ b.value) block) :
    ((respond block).status_code = 400 →
      handleBlock respond block =
        [block,
         block.filter (fun i => !((dupValues (respond block).resources).contains i.value))]) ∧
    ((respond block).status_code ≠ 400 → handleBlock respond block = [block]) := by
  constructor
  · intro h400
    simp only [handleBlock]
    rw [if_pos h400, processErrors_filter _ _ hvals]
  · intro hne
    simp only [handleBlock]
    rw [if_neg hne]

/-- Witness for `upload_iocs_duplicate_retry`: a singleton block whose only
IOC is duplicate-flagged is resubmitted empty. -/
theorem upload_iocs_duplicate_retry_witness :
    handleBlock resp400 [dupIoc] = [[dupIoc], []] := by
  have h := (upload_iocs_duplicate_retry resp400 [dupIoc] (by simp)).1 rfl
  rw [h]
  rfl

/-- Invariant of the block-building loop: the accumulated flattened blocks,
the size bound on each produced block, and the skip messages. -/
theorem buildBlocks_spec (expiration : String) :
    ∀ (iocs : List FilteredIoc) (blocks : List (List CsIoc)) (block : List CsIoc)
      (msgs : List String),
      block.length < 200 →
      ((buildBlocks expiration iocs blocks block msgs).1.flatten
          = blocks.flatten ++ block ++ iocs.filterMap (encodeMapped expiration)) ∧
      (∀ b ∈ (buildBlocks expiration iocs blocks block msgs).1,
          b ∈ blocks ∨ (0 < b.length ∧ b.length ≤ 200)) ∧
      ((buildBlocks expiration iocs blocks block msgs).2
          = msgs ++ (iocs.filter (fun i => (TYPE_MAP.lookup i.type).isNone)).map csSkipMsg) := by
  intro iocs
  induction iocs with
  | nil =>
    intro blocks block msgs hlen
    refine ⟨?_, ?_, ?_⟩
    · by_cases hb : block.isEmpty
      · have : block = [] := List.isEmpty_iff.mp hb
        simp [buildBlocks, hb, this]
      · simp [buildBlocks, hb]
    · intro b hb
      by_cases hbe : block.isEmpty
      · left; simpa [buildBlocks, hbe] using hb
      · simp only [buildBlocks, hbe, if_false, Bool.false_eq_true] at hb
        rcases List.mem_append.mp hb with h | h
        · left; exact h
        · right
          have hbb : b = block := by simpa using h
          subst hbb
          refine ⟨List.length_pos.mpr ?_, by omega⟩
          intro hnil
          exact absurd (by simp [hnil]) hbe
    · simp [buildBlocks]
  | cons ioc rest ih =>
    intro blocks block msgs hlen
    cases hl : TYPE_MAP.lookup ioc.type with
    | none =>
      simp only [buildBlocks, hl]
      have h := ih blocks block (msgs ++ [csSkipMsg ioc]) hlen
      refine ⟨?_, h.2.1, ?_⟩
      · rw [h.1]
        simp [List.filterMap_cons, encodeMapped, hl]
      · rw [h.2.2]
        simp [List.filter_cons, hl]
    | some t =>
      simp only [buildBlocks, hl]
      by_cases hflush : 200 ≤ (block ++ [encodeIoc expiration t ioc]).length
      · rw [if_pos hflush]
        have h := ih (blocks ++ [block ++ [encodeIoc expiration t ioc]]) [] msgs (by simp)
        refine ⟨?_, ?_, ?_⟩
        · rw [h.1]
          simp [List.filterMap_cons, encodeMapped, hl]
        · intro b hb
          rcases h.2.1 b hb with h2 | h2
          · rcases List.mem_append.mp h2 with h3 | h3
            · left; exact h3
            · right
              have hbb : b = block ++ [encodeIoc expiration t ioc] := by simpa using h3
              subst hbb
              constructor
              · simp
              · simp only [List.length_append, List.length_cons, List.length_nil]
                omega
          · right; exact h2
        · rw [h.2.2]
          simp [List.filter_cons, hl]
      · rw [if_neg hflush]
        have hlen2 : (block ++ [encodeIoc expiration t ioc]).length < 200 := by omega
        have h := ih blocks (block ++ [encodeIoc expiration t ioc]) msgs hlen2
        refine ⟨?_, h.2.1, ?_⟩
        · rw [h.1]
          simp [List.filterMap_cons, encodeMapped, hl]
        · rw [h.2.2]
          simp [List.filter_cons, hl]

/-- C6: `upload_iocs` encodes exactly the IOCs whose type has a `TYPE_MAP`
entry and partitions them, in order, into consecutive non-empty blocks of at
most 200 records — the concatenation of all blocks is exactly the encoded
mapped sequence — while every IOC of unmapped type appears in no block and is
reported by a printed message, in order. -/
theorem upload_iocs_blocking (expiration : String) (iocs : List FilteredIoc) :
    (upload_blocks expiration iocs).1.flatten = iocs.filterMap (encodeMapped expiration) ∧
    (∀ b ∈ (upload_blocks expiration iocs).1, 0 < b.length ∧ b.length ≤ 200) ∧
    (upload_blocks expiration iocs).2
      = (iocs.filter (fun i => (TYPE_MAP.lookup i.type).isNone)).map csSkipMsg := by
  have h := buildBlocks_spec expiration iocs [] [] [] (by simp)
  refine ⟨by simpa using h.1, ?_, by simpa using h.2.2⟩
  intro b hb
  rcases h.2.1 b hb with h2 | h2
  · simp at h2
  · exact h2

/-- Mapping `t['name']` over object-shaped tags succeeds with the names. -/
theorem mapM_tagNameOf_obj : ∀ l : List String, (l.map PyTag.obj).mapM tagNameOf = some l := by
  intro l
  induction l with
  | nil => rfl
  | cons a as ih =>
    rw [List.map_cons, List.mapM_cons, ih]
    rfl

/-- Taking string-shaped tags as strings succeeds with the strings. -/
theorem mapM_tagAsStr_str : ∀ l : List String, (l.map PyTag.str).mapM tagAsStr = some l := by
  intro l
  induction l with
  | nil => rfl
  | cons a as ih =>
    rw [List.map_cons, List.mapM_cons, ih]
    rfl

/-- Flattening a list of `{"name": …}` objects yields the names. -/
theorem flattenTags_objs (names : List String) :
    flattenTags (names.map PyTag.obj) = some names := by
  cases names with
  | nil => rfl
  | cons n ns =>
    show (PyTag.obj n :: ns.map PyTag.obj).mapM tagNameOf = some (n :: ns)
    simpa using mapM_tagNameOf_obj (n :: ns)

/-- Flattening a list of plain strings yields the strings. -/
theorem flattenTags_strs (strs : List String) :
    flattenTags (strs.map PyTag.str) = some strs := by
  cases strs with
  | nil => rfl
  | cons n ns =>
    show (PyTag.str n :: ns.map PyTag.str).mapM tagAsStr = some (n :: ns)
    simpa using mapM_tagAsStr_str (n :: ns)

/-- C7: the CSV writers' tag flattening handles both source representations
and yields the same result — a list of `{"name": …}` objects flattens to its
names, a list of plain strings to itself, and on `["a","b"]`-shaped input
both the v1.3 writer (`ind_dict_to_csv`) and the TruSTAR 2.0 writer
(`obl_dict_to_csv`) emit the pipe-joined cell `a|b`, detecting the
representation per record. -/
theorem tag_flattening_both_representations (names strs : List String) :
    flattenTags (names.map PyTag.obj) = some names ∧
    flattenTags (strs.map PyTag.str) = some strs ∧
    rowOfInd ["tags"] false [("tags", PyVal.tagList [PyTag.obj "a", PyTag.obj "b"])] =
      some [PyVal.str "a|b"] ∧
    rowOfInd ["tags"] false [("tags", PyVal.tagList [PyTag.str "a", PyTag.str "b"])] =
      some [PyVal.str "a|b"] ∧
    rowOfObl ["tags"] [("tags", PyVal.tagList [PyTag.obj "a", PyTag.obj "b"])] =
      some [PyVal.str "a|b"] ∧
    rowOfObl ["tags"] [("tags", PyVal.tagList [PyTag.str "a", PyTag.str "b"])] =
      some [PyVal.str "a|b"] :=
  ⟨flattenTags_objs names, flattenTags_strs strs, rfl, rfl, rfl, rfl⟩

/-- A successful row of key lookups has one value per key. -/
theorem mapM_lookup_length :
    ∀ (keys : List String) (d : PyDict) (vals : List PyVal),
      keys.mapM (fun rh => List.lookup rh d) = some vals → vals.length = keys.length := by
  intro keys
  induction keys with
  | nil =>
    intro d vals h
    simp only [List.mapM_nil, pure] at h
    cases h
    rfl
  | cons k ks ih =>
    intro d vals h
    rw [List.mapM_cons] at h
    cases hk : List.lookup k d with
    | none => rw [hk] at h; simp at h
    | some v =>
      rw [hk] at h
      cases hks : ks.mapM (fun rh => List.lookup rh d) with
      | none => rw [hks] at h; simp at h
      | some vs =>
        rw [hks] at h
        simp only [Option.bind_eq_bind, Option.some_bind, pure] at h
        cases h
        simp [ih d vs hks]

/-- The emitted header ends in `tags` whenever the first record has a tags
key. -/
theorem csvHeader_tags_last (first : PyDict)
    (h : (first.map Prod.fst).contains "tags" = true) :
    (csvHeader first).getLast? = some "tags" := by
  unfold csvHeader
  rw [if_pos h]
  exact List.getLast?_concat _

/-- Shape of a successfully written v1.3 row (flatten mode): the non-tags
field values followed by a single flattened-tags cell. -/
theorem rowOfInd_shape (header : List String) (ind : PyDict) (row : List PyVal)
    (h : rowOfInd header false ind = some row) :
    ∃ base ts flat,
      base.length = (header.filter (fun s => !(s == "tags"))).length ∧
      tagsValueOf ind = some ts ∧ flattenTags ts = some flat ∧
      row = base ++ [PyVal.str (String.intercalate "|" flat)] := by
  unfold rowOfInd at h
  cases hbase : (header.filter (fun s => !(s == "tags"))).mapM (fun rh => List.lookup rh ind) with
  | none => rw [hbase] at h; simp at h
  | some base =>
    rw [hbase] at h
    simp only [Option.bind_eq_bind, Option.some_bind] at h
    cases hts : tagsValueOf ind with
    | none => rw [hts] at h; simp at h
    | some ts =>
      rw [hts] at h
      simp only [Option.some_bind] at h
      cases hflat : flattenTags ts with
      | none => rw [hflat] at h; simp at h
      | some flat =>
        rw [hflat] at h
        simp only [Option.some_bind] at h
        simp at h
        exact ⟨base, ts, flat, mapM_lookup_length _ _ _ hbase, rfl, hflat, h.symm⟩

/-- Shape of a successfully written MISP CSV row whose tags value is truthy:
the non-tags field values followed by the stringified tags cell. -/
theorem rowOfIocDict_shape (header : List String) (ioc : PyDict) (row : List PyVal)
    (v : PyVal) (h : rowOfIocDict header ioc = some row)
    (hv : List.lookup "tags" ioc = some v) (ht : pyTruthy v = true) :
    ∃ base, base.length = (header.filter (fun s => !(s == "tags"))).length ∧
      row = base ++ [PyVal.str (replaceQuotes (pyStr v))] := by
  unfold rowOfIocDict at h
  cases hbase : (header.filter (fun s => !(s == "tags"))).mapM (fun rh => List.lookup rh ioc) with
  | none => rw [hbase] at h; simp at h
  | some base =>
    rw [hbase, hv] at h
    simp only [Option.bind_eq_bind, Option.some_bind] at h
    rw [if_pos ht] at h
    simp at h
    exact ⟨base, mapM_lookup_length _ _ _ hbase, h.symm⟩

/-- C8 counterexample: the MISP CSV writer puts `tags` last in the header,
but a record whose tags value is empty (falsy) gets no tags cell at all —
the data row does not end with the flattened tags value. -/
theorem csv_tags_last_counterexample :
    ioc_dicts_to_csv [emptyTagsIoc] =
      some (["value", "tags"], [[PyVal.str "v"]], []) ∧
    List.lookup "tags" emptyTagsIoc = some (PyVal.str "") ∧
    ([PyVal.str "v"] : List PyVal).getLast? = some (PyVal.str "v") ∧
    PyVal.str "v" ≠ PyVal.str (replaceQuotes (pyStr (PyVal.str ""))) ∧
    ([PyVal.str "v"] : List PyVal).length = (["value", "tags"] : List String).length - 1 :=
  ⟨rfl, rfl, rfl, by decide, rfl⟩

/-- C8 (amended): all three CSV writers emit a header whose last column is
`tags` whenever the first record has a tags key, regardless of where that
key sits among the record's keys; every data row the v1.3 writer writes (in
flatten mode) places the single flattened-tags cell after all other fields;
the MISP writer does the same for rows whose tags value is non-empty, but
omits the tags cell entirely when the tags value is falsy (see the
counterexample). -/
theorem csv_tags_column_last :
    (∀ (first : PyDict) (rest : List PyDict) header rows skipped (split_tags : Bool),
      ind_dict_to_csv (first :: rest) split_tags = some (header, rows, skipped) →
      (first.map Prod.fst).contains "tags" = true →
      header.getLast? = some "tags") ∧
    (∀ (header : List String) (ind : PyDict) (row : List PyVal),
      rowOfInd header false ind = some row →
      ∃ base ts flat,
        base.length = (header.filter (fun s => !(s == "tags"))).length ∧
        tagsValueOf ind = some ts ∧ flattenTags ts = some flat ∧
        row = base ++ [PyVal.str (String.intercalate "|" flat)]) ∧
    (∀ (first : PyDict) (rest : List PyDict) header rows skipped,
      ioc_dicts_to_csv (first :: rest) = some (header, rows, skipped) →
      (first.map Prod.fst).contains "tags" = true →
      header.getLast? = some "tags") ∧
    (∀ (first : PyDict) (rest : List PyDict) header rows skipped,
      obl_dict_to_csv (first :: rest) = some (header, rows, skipped) →
      (first.map Prod.fst).contains "tags" = true →
      header.getLast? = some "tags") ∧
    (∀ (header : List String) (ioc : PyDict) (row : List PyVal) (v : PyVal),
      rowOfIocDict header ioc = some row →
      List.lookup "tags" ioc = some v → pyTruthy v = true →
      ∃ base, base.length = (header.filter (fun s => !(s == "tags"))).length ∧
        row = base ++ [PyVal.str (replaceQuotes (pyStr v))]) := by
  refine ⟨?_, rowOfInd_shape, ?_, ?_, rowOfIocDict_shape⟩
  · intro first rest header rows skipped split_tags h hc
    have hh : header = csvHeader first := by
      simp only [ind_dict_to_csv] at h
      cases h
      rfl
    rw [hh]
    exact csvHeader_tags_last first hc
  · intro first rest header rows skipped h hc
    have hh : header = csvHeader first := by
      simp only [ioc_dicts_to_csv] at h
      cases h
      rfl
    rw [hh]
    exact csvHeader_tags_last first hc
  · intro first rest header rows skipped h hc
    have hh : header = csvHeader first := by
      simp only [obl_dict_to_csv] at h
      cases h
      rfl
    rw [hh]
    exact csvHeader_tags_last first hc

/-- Witness for `csv_tags_column_last`: a two-key record with dict-shaped
tags. -/
theorem csv_tags_column_last_witness :
    (["value", "tags"] : List String).getLast? = some "tags" ∧
    ∃ base ts flat,
      base.length = ((["value", "tags"] : List String).filter (fun s => !(s == "tags"))).length ∧
      tagsValueOf csvInd = some ts ∧ flattenTags ts = some flat ∧
      [PyVal.str "v", PyVal.str "a|b"] = base ++ [PyVal.str (String.intercalate "|" flat)] :=
  ⟨csv_tags_column_last.1 csvInd [] ["value", "tags"]
      [[PyVal.str "v", PyVal.str "a|b"]] [] false rfl rfl,
   csv_tags_column_last.2.1 ["value", "tags"] csvInd [PyVal.str "v", PyVal.str "a|b"] rfl⟩

/-- The vetted marker never survives the tag filter. -/
theorem vetted_not_mem (ts : List TagObj) :
    VETTED_TAG ∉ (ts.filter (fun x => !(x.name == VETTED_TAG))).map (fun x => x.name) := by
  intro hmem
  rcases List.mem_map.mp hmem with ⟨x, hx, hname⟩
  have h2 := (List.mem_filter.mp hx).2
  simp [hname] at h2

/-- Every non-vetted tag name survives the tag filter. -/
theorem vetted_retained (ts : List TagObj) :
    ∀ x ∈ ts, x.name ≠ VETTED_TAG →
      x.name ∈ (ts.filter (fun x => !(x.name == VETTED_TAG))).map (fun x => x.name) := by
  intro x hx hne
  exact List.mem_map_of_mem _ (List.mem_filter.mpr ⟨hx, by simp [hne]⟩)

/-- C10: every `tags` field `filter_results` outputs comes from a `Tag`
attribute and is the pipe-joined list of that attribute's tag names with the
vetted marker `rhisac: vetted` excluded, every other name retained in order
— the vetted marker itself never appears in the delivered tags. -/
theorem filter_results_excludes_vetted :
    ∀ (ioc keep : List (String × AttrVal)), filter_results_one ioc = some keep →
      ∀ s, ("tags", AttrVal.str s) ∈ keep →
        ∃ ts, ("Tag", AttrVal.tags ts) ∈ ioc ∧
          s = String.intercalate "|"
            ((ts.filter (fun x => !(x.name == VETTED_TAG))).map (fun x => x.name)) ∧
          VETTED_TAG ∉ (ts.filter (fun x => !(x.name == VETTED_TAG))).map (fun x => x.name) ∧
          ∀ x ∈ ts, x.name ≠ VETTED_TAG →
            x.name ∈ (ts.filter (fun x => !(x.name == VETTED_TAG))).map (fun x => x.name) := by
  intro ioc
  induction ioc with
  | nil =>
    intro keep h s hs
    simp only [filter_results_one] at h
    cases h
    simp at hs
  | cons kv rest ih =>
    obtain ⟨k, v⟩ := kv
    intro keep h s hs
    simp only [filter_results_one] at h
    by_cases hk : OUTPUT_FIELDS.contains k = true
    · rw [if_pos hk] at h
      by_cases hkt : (k == "Tag") = true
      · rw [if_pos hkt] at h
        have hk' : k = "Tag" := by simpa using hkt
        subst hk'
        cases v with
        | tags ts =>
          cases hrest : filter_results_one rest with
          | none => rw [hrest] at h; simp at h
          | some keep' =>
            rw [hrest] at h
            have hkeep : keep = ("tags", AttrVal.str (String.intercalate "|"
                ((ts.filter (fun x => !(x.name == VETTED_TAG))).map (fun x => x.name)))) ::
                  keep' := by
              simpa using h.symm
            subst hkeep
            rcases List.mem_cons.mp hs with hhead | htail
            · have hseq : s = String.intercalate "|"
                  ((ts.filter (fun x => !(x.name == VETTED_TAG))).map (fun x => x.name)) := by
                simpa using hhead
              exact ⟨ts, List.mem_cons_self _ _, hseq, vetted_not_mem ts, vetted_retained ts⟩
            · rcases ih keep' hrest s htail with ⟨ts', h1, h2, h3, h4⟩
              exact ⟨ts', List.mem_cons_of_mem _ h1, h2, h3, h4⟩
        | str s' => simp at h
        | event i => simp at h
      · rw [if_neg hkt] at h
        by_cases hke : (k == "Event") = true
        · rw [if_pos hke] at h
          cases v with
          | event info =>
            cases hrest : filter_results_one rest with
            | none => rw [hrest] at h; simp at h
            | some keep' =>
              rw [hrest] at h
              have hkeep : keep = ("event", AttrVal.str info) :: keep' := by
                simpa using h.symm
              subst hkeep
              rcases List.mem_cons.mp hs with hhead | htail
              · exact absurd hhead (by simp)
              · rcases ih keep' hrest s htail with ⟨ts', h1, h2, h3, h4⟩
                exact ⟨ts', List.mem_cons_of_mem _ h1, h2, h3, h4⟩
          | str s' => simp at h
          | tags ts => simp at h
        · rw [if_neg hke] at h
          cases hrest : filter_results_one rest with
          | none => rw [hrest] at h; simp at h
          | some keep' =>
            rw [hrest] at h
            have hkeep : keep = (k, v) :: keep' := by simpa using h.symm
            subst hkeep
            rcases List.mem_cons.mp hs with hhead | htail
            · have hk2 : k = "tags" := by
                have := congrArg Prod.fst hhead
                simpa using this.symm
              subst hk2
              exact absurd hk (by decide)
            · rcases ih keep' hrest s htail with ⟨ts', h1, h2, h3, h4⟩
              exact ⟨ts', List.mem_cons_of_mem _ h1, h2, h3, h4⟩
    · rw [if_neg hk] at h
      rcases ih keep h s hs with ⟨ts', h1, h2, h3, h4⟩
      exact ⟨ts', List.mem_cons_of_mem _ h1, h2, h3, h4⟩

/-- Witness for `filter_results_excludes_vetted`: an attribute tagged with
the vetted marker and one other tag keeps only the other tag. -/
theorem filter_results_excludes_vetted_witness :
    ∃ ts, ("Tag", AttrVal.tags ts) ∈ vettedExampleIoc ∧
      "a" = String.intercalate "|"
        ((ts.filter (fun x => !(x.name == VETTED_TAG))).map (fun x => x.name)) ∧
      VETTED_TAG ∉ (ts.filter (fun x => !(x.name == VETTED_TAG))).map (fun x => x.name) ∧
      ∀ x ∈ ts, x.name ≠ VETTED_TAG →
        x.name ∈ (ts.filter (fun x => !(x.name == VETTED_TAG))).map (fun x => x.name) :=
  filter_results_excludes_vetted vettedExampleIoc [("tags", AttrVal.str "a")] rfl "a"
    (by simp)

end IntelIntegrations
